import Mathlib

/-!
# ROS-plot dashboard server: a shallow embedding

The embedding follows `server/src/main.go` and `server/src/handlers.go`.

* A Go `string` (and a `[]byte`) is a list of bytes.
* The handlers run against an explicit file-system state: the data directory
  `./data` is a flat table from file names to nodes (regular file with its
  content, or sub-directory).  A path that does not denote an entry of that
  directory is answered with an I/O error.  Permissions, symbolic links and
  concurrent access are outside the model.
* `encoding/json` is a parameter of the handlers (`Json`).
* Log output (`fmt.Printf`) is not part of the state.
-/

namespace RosPlot

/-! ## Strings -/

/-- A Go `string` or `[]byte`: a sequence of bytes. -/
abbrev GoString := List UInt8

/-- The bytes of an ASCII string literal. -/
def str (s : String) : GoString := s.toList.map (fun c => UInt8.ofNat c.toNat)

/-- Go `strings.HasPrefix`: `len(s) >= len(prefix) && s[:len(prefix)] == prefix`. -/
def HasPrefix (s pre : GoString) : Bool :=
  decide (pre.length ≤ s.length) && (s.take pre.length == pre)

/-- Go `strings.HasSuffix`: `len(s) >= len(suffix) && s[len(s)-len(suffix):] == suffix`. -/
def HasSuffix (s suf : GoString) : Bool :=
  decide (suf.length ≤ s.length) && (s.drop (s.length - suf.length) == suf)

/-- Go `strings.Contains`: `substr` occurs at some offset of `s`. -/
def Contains : GoString → GoString → Bool
  | [], sub => HasPrefix [] sub
  | c :: cs, sub => HasPrefix (c :: cs) sub || Contains cs sub

/-- Go `strings.Split` for a one-byte separator (both call sites pass one:
`"."` and `"\n"`): the pieces between the separators, never an empty list. -/
def Split : GoString → UInt8 → List GoString
  | [], _ => [[]]
  | c :: cs, sep =>
    if c = sep then [] :: Split cs sep
    else match Split cs sep with
      | [] => [[c]]
      | p :: ps => (c :: p) :: ps

/-! ## Regular expressions (the fragment of `regexp` that `validPath` uses)

The matcher works on bytes. `regexp` decodes its input as UTF-8, and the
literals and the class of `validPath` are ASCII, which no byte of a longer
UTF-8 sequence is, so the two agree on this pattern. Without the `m` flag, `^`
and `$` match at the two ends of the text only. -/

/-- Syntax of the patterns: a literal byte, a character class given by its
ranges, concatenation, greedy star, a numbered capture group and the two text
anchors. -/
inductive Regex where
  | empty
  | byte (b : UInt8)
  | cls (ranges : List (UInt8 × UInt8))
  | cat (a b : Regex)
  | star (a : Regex)
  | group (i : Nat) (a : Regex)
  | bot
  | eot

/-- A thread of the backtracking matcher: the offset reached, the input left,
and the capture groups closed so far (latest first). -/
structure MatchState where
  pos : Nat
  rest : GoString
  caps : List (Nat × GoString)
deriving DecidableEq

/-- Membership of a byte in a class given by inclusive ranges. -/
def inRanges (ranges : List (UInt8 × UInt8)) (c : UInt8) : Bool :=
  ranges.any (fun r => decide (r.1 ≤ c) && decide (c ≤ r.2))

/-- Greedy iteration: prefer one more round of `step` (which must consume
input) over stopping. `fuel` bounds the number of rounds. -/
def starLoop (step : MatchState → List MatchState) : Nat → MatchState → List MatchState
  | 0, s => [s]
  | fuel + 1, ⟨pos, rest, caps⟩ =>
    (((step ⟨pos, rest, caps⟩).filter (fun t => decide (t.rest.length < rest.length))).map
      (starLoop step fuel)).flatten ++ [⟨pos, rest, caps⟩]

/-- All ways the pattern matches at a thread, in priority order (leftmost-first
semantics: the first element is the match `regexp` reports). -/
def Regex.run : Regex → MatchState → List MatchState
  | .empty => fun s => [s]
  | .byte b => fun ⟨pos, rest, caps⟩ =>
    match rest with
    | c :: cs => if c = b then [⟨pos + 1, cs, caps⟩] else []
    | [] => []
  | .cls ranges => fun ⟨pos, rest, caps⟩ =>
    match rest with
    | c :: cs => if inRanges ranges c then [⟨pos + 1, cs, caps⟩] else []
    | [] => []
  | .cat a b => fun s => ((a.run s).map b.run).flatten
  | .star a => fun ⟨pos, rest, caps⟩ => starLoop a.run (rest.length + 1) ⟨pos, rest, caps⟩
  | .group i a => fun ⟨pos, rest, caps⟩ =>
    (a.run ⟨pos, rest, caps⟩).map (fun ⟨pos1, rest1, caps1⟩ =>
      ⟨pos1, rest1, (i, rest.take (rest.length - rest1.length)) :: caps1⟩)
  | .bot => fun ⟨pos, rest, caps⟩ => if pos = 0 then [⟨pos, rest, caps⟩] else []
  | .eot => fun ⟨pos, rest, caps⟩ => if rest = [] then [⟨pos, rest, caps⟩] else []

/-- The pattern matching a literal string. -/
def Regex.lit : GoString → Regex
  | [] => .empty
  | c :: cs => .cat (.byte c) (Regex.lit cs)

/-- Text of capture group `i` of a finished thread (`""` when the group did
not take part in the match). -/
def capture (caps : List (Nat × GoString)) (i : Nat) : GoString :=
  match caps.find? (fun p => p.1 == i) with
  | some p => p.2
  | none => []

/-- The match the pattern reports when started at offset `pos` (the first thread
in priority order), with the text it covers. -/
def matchAt (re : Regex) (pos : Nat) (s : GoString) : Option (GoString × MatchState) :=
  match re.run ⟨pos, s, []⟩ with
  | ⟨pos1, rest1, caps1⟩ :: _ => some (s.take (s.length - rest1.length), ⟨pos1, rest1, caps1⟩)
  | [] => none

/-- Search for the leftmost match starting at offset `pos` or later. -/
def searchFrom (re : Regex) : Nat → GoString → Option (GoString × MatchState)
  | pos, [] => matchAt re pos []
  | pos, c :: cs => (matchAt re pos (c :: cs)).orElse (fun _ => searchFrom re (pos + 1) cs)

/-- Go `(*Regexp).FindStringSubmatch` for a pattern with `groups` capture
groups: `none` for Go's `nil`, otherwise the whole match followed by the text
of each group. -/
def FindStringSubmatch (re : Regex) (groups : Nat) (s : GoString) : Option (List GoString) :=
  match searchFrom re 0 s with
  | none => none
  | some (whole, t) => some (whole :: (List.range groups).map (fun i => capture t.caps (i + 1)))

/-! ## Constants of `main.go` -/

def dataDir : GoString := str "./data"

def appDir : GoString := str "./app"

def rosIgnoreListPath : GoString := str "./data/ros_ignore_list.txt"

/-- The class `[a-zA-Z0-9_\-\ ]` of `validPath`. -/
def nameClass : List (UInt8 × UInt8) :=
  [(97, 122), (65, 90), (48, 57), (95, 95), (45, 45), (32, 32)]

/-- The pattern `^/v0/(dashboard)/([a-zA-Z0-9_\-\ ]*)$`. -/
def validPath : Regex :=
  .cat .bot
    (.cat (Regex.lit (str "/v0/"))
      (.cat (.group 1 (Regex.lit (str "dashboard")))
        (.cat (Regex.lit (str "/"))
          (.cat (.group 2 (.star (.cls nameClass))) .eot))))

/-- RemovedPrefix for files that have been deleted by the user. -/
def RemovedPrefix : GoString := str "deleted_"

def getDashboardPath (name : GoString) : GoString :=
  let fileName := name
  let fileName := if HasSuffix fileName (str ".json") == false then fileName ++ str ".json" else fileName
  dataDir ++ str "/" ++ fileName

/-! ## The file system -/

/-- What a name of the data directory denotes. -/
inductive Node where
  | file (content : GoString)
  | dir
deriving DecidableEq

/-- A directory: a table from entry names to nodes. -/
abbrev Dir := List (GoString × Node)

/-- The two directories the server works with, each `none` when it does not
exist (or cannot be opened). -/
structure FS where
  app : Option Dir
  data : Option Dir
deriving DecidableEq

/-- One entry of a directory listing (`os.FileInfo`). -/
structure FileInfo where
  Name : GoString
  IsDir : Bool
deriving DecidableEq

/-- A name a directory entry can have: not empty, not `.` or `..`, without
`/` and without NUL. -/
def legalName (n : GoString) : Bool :=
  (n != []) && (n != str ".") && (n != str "..") && !n.contains 47 && !n.contains 0

/-- The entry of the data directory a path of the form `./data/<name>`
denotes. Any other path lies outside the modelled directory. -/
def resolve (path : GoString) : Option GoString :=
  if HasPrefix path (str "./data/") then
    if legalName (path.drop 7) then some (path.drop 7) else none
  else none

def Dir.erase (d : Dir) (n : GoString) : Dir := d.filter (fun e => e.1 != n)

def Dir.put (d : Dir) (n : GoString) (node : Node) : Dir := (n, node) :: d.erase n

/-- Lexicographic byte order, Go's `<=` on strings. -/
def bytesLE : GoString → GoString → Bool
  | [], _ => true
  | _ :: _, [] => false
  | a :: as, b :: bs => if a < b then true else if b < a then false else bytesLE as bs

/-- Go `ioutil.ReadFile`: `none` stands for an error. -/
def ReadFile (fs : FS) (path : GoString) : Option GoString :=
  match fs.data, resolve path with
  | some d, some n =>
    match d.lookup n with
    | some (.file content) => some content
    | _ => none
  | _, _ => none

/-- Go `ioutil.WriteFile`: creates or truncates the file; `none` stands for
an error (no data directory, a path outside it, or the path is a directory). -/
def WriteFile (fs : FS) (path : GoString) (data : GoString) : Option FS :=
  match fs with
  | ⟨app, some d⟩ =>
    match resolve path with
    | some n =>
      match d.lookup n with
      | some .dir => none
      | _ => some ⟨app, some (d.put n (.file data))⟩
    | none => none
  | ⟨_, none⟩ => none

/-- Go `os.Rename` (Unix): fails when the source is missing, when the target
is a directory, and when a directory would replace a file; otherwise the
source takes the target's name, replacing it. -/
def Rename (fs : FS) (oldpath newpath : GoString) : Option FS :=
  match fs with
  | ⟨app, some d⟩ =>
    match resolve oldpath, resolve newpath with
    | some o, some n =>
      match d.lookup o with
      | none => none
      | some src =>
        match d.lookup n, src with
        | some .dir, _ => none
        | some (.file _), .dir => none
        | _, _ => some ⟨app, some ((d.erase o).put n src)⟩
    | _, _ => none
  | ⟨_, none⟩ => none

/-- The listing of a directory: one `FileInfo` per entry, sorted by name. -/
def listing (d : Dir) : List FileInfo :=
  (d.map (fun e => (⟨e.1, decide (e.2 = Node.dir)⟩ : FileInfo))).insertionSort
    (fun a b => bytesLE a.Name b.Name = true)

/-- Go `ioutil.ReadDir`: the entries of the directory sorted by name. -/
def ReadDir (fs : FS) (path : GoString) : Option (List FileInfo) :=
  if path = dataDir then fs.data.map listing
  else if path = appDir then fs.app.map listing
  else none

/-! ## `net/http` -/

/-- The state of an `http.ResponseWriter`: the response headers, the status
line once it has been written, and the body written so far. -/
structure ResponseWriter where
  header : List (GoString × GoString)
  status : Option Nat
  body : GoString
deriving DecidableEq

/-- The writer a handler starts with. -/
def ResponseWriter.new : ResponseWriter := ⟨[], none, []⟩

/-- The call `w.Header().Set(key, value)`; headers set after the status line
was written are not part of the response. -/
def ResponseWriter.Set : ResponseWriter → GoString → GoString → ResponseWriter
  | ⟨header, none, body⟩, key, value => ⟨(key, value) :: header.filter (fun e => e.1 != key), none, body⟩
  | ⟨header, some code, body⟩, _, _ => ⟨header, some code, body⟩

/-- The call `w.WriteHeader(code)`; only the first call counts. -/
def ResponseWriter.WriteHeader : ResponseWriter → Nat → ResponseWriter
  | ⟨header, none, body⟩, code => ⟨header, some code, body⟩
  | ⟨header, some old, body⟩, _ => ⟨header, some old, body⟩

/-- The call `w.Write(b)`; writes status 200 first when no status was written. -/
def ResponseWriter.Write : ResponseWriter → GoString → ResponseWriter
  | ⟨header, none, body⟩, b => ⟨header, some 200, body ++ b⟩
  | ⟨header, some code, body⟩, b => ⟨header, some code, body ++ b⟩

/-- The status the client receives once the handler has returned. -/
def ResponseWriter.statusCode (w : ResponseWriter) : Nat := w.status.getD 200

/-- The value of a response header. -/
def ResponseWriter.Get (w : ResponseWriter) (key : GoString) : Option GoString :=
  w.header.lookup key

/-- The part of `*http.Request` the handlers read: the method, `r.URL.Path`,
and what `ioutil.ReadAll(r.Body)` returns (`none` for a read error). -/
structure Request where
  Method : GoString
  Path : GoString
  Body : Option GoString
deriving DecidableEq

def StatusOK : Nat := 200
def StatusNotFound : Nat := 404
def StatusMethodNotAllowed : Nat := 405
def StatusInternalServerError : Nat := 500

/-- Go `http.NotFound`, that is `http.Error(w, "404 page not found", 404)`. -/
def NotFound (w : ResponseWriter) : ResponseWriter :=
  (((w.Set (str "Content-Type") (str "text/plain; charset=utf-8")).Set
    (str "X-Content-Type-Options") (str "nosniff")).WriteHeader StatusNotFound).Write
    (str "404 page not found\n")

/-! ## `encoding/json` -/

/-- The two functions of `encoding/json` the server calls, over a type `J` of
decoded JSON objects: `Unmarshal` into a `map[string]interface{}` and
`Marshal` of the map from dashboard names to such objects (`none`: error). -/
structure Json (J : Type) where
  Unmarshal : GoString → Option J
  Marshal : List (GoString × J) → Option GoString

/-- The assignment `m[key] = value` on a Go map kept as an association list. -/
def mapSet {J : Type} (m : List (GoString × J)) (key : GoString) (value : J) :
    List (GoString × J) :=
  (key, value) :: m.filter (fun e => e.1 != key)

/-! ## `handlers.go` -/

/-- DELETE Dashboard. -/
def handleDeleteDashboard (w : ResponseWriter) (_r : Request) (name : GoString) (fs : FS) :
    ResponseWriter × FS :=
  let oldPath := getDashboardPath name
  let newPath := getDashboardPath (RemovedPrefix ++ name)
  match Rename fs oldPath newPath with
  | none => (w.WriteHeader StatusInternalServerError, fs)
  | some fs1 => (w.WriteHeader StatusOK, fs1)

/-- POST new Dashboard. -/
def handlePostDashboard (w : ResponseWriter) (r : Request) (name : GoString) (fs : FS) :
    ResponseWriter × FS :=
  match r.Body with
  | none => (w.WriteHeader StatusInternalServerError, fs)
  | some jsonBytes =>
    let path := getDashboardPath name
    match WriteFile fs path jsonBytes with
    | none => (w.WriteHeader StatusInternalServerError, fs)
    | some fs1 => (w, fs1)

/-- GET specific dashboard. -/
def handleGetDashboard (w : ResponseWriter) (_r : Request) (name : GoString) (fs : FS) :
    ResponseWriter × FS :=
  let path := getDashboardPath name
  match ReadFile fs path with
  | none => (w.WriteHeader StatusNotFound, fs)
  | some jsonBytes => ((w.Set (str "Content-Type") (str "application/json")).Write jsonBytes, fs)

/-- One round of the loop of `handleGetDashboards` over the directory listing. -/
def dashboardStep {J : Type} (lib : Json J) (fs : FS) (dashboardMap : List (GoString × J))
    (file : FileInfo) : List (GoString × J) :=
  if file.IsDir || !Contains file.Name (str ".json") || Contains file.Name RemovedPrefix then
    dashboardMap
  else
    let path := getDashboardPath file.Name
    match ReadFile fs path with
    | none => dashboardMap
    | some b =>
      let name := (Split file.Name 46).headD []
      match lib.Unmarshal b with
      | none => dashboardMap
      | some temp => mapSet dashboardMap name temp

/-- The map `dashboardMap` that `handleGetDashboards` has built when its loop
over `files` ends. -/
def dashboardMap {J : Type} (lib : Json J) (fs : FS) (files : List FileInfo) :
    List (GoString × J) :=
  files.foldl (dashboardStep lib fs) []

/-- GET all dashboards. -/
def handleGetDashboards {J : Type} (lib : Json J) (w : ResponseWriter) (_r : Request) (fs : FS) :
    ResponseWriter × FS :=
  match ReadDir fs dataDir with
  | none => (w.WriteHeader StatusInternalServerError, fs)
  | some files =>
    match lib.Marshal (dashboardMap lib fs files) with
    | none => (w.WriteHeader StatusInternalServerError, fs)
    | some jsonBytes =>
      ((w.Set (str "Content-Type") (str "application/json")).Write jsonBytes, fs)

/-- GET, GET all, POST, DELETE handler switch for dashboards endpoint. -/
def dashboardHandler {J : Type} (lib : Json J) (w : ResponseWriter) (r : Request)
    (subMatch : GoString) (fs : FS) : ResponseWriter × FS :=
  if r.Method = str "GET" then
    if subMatch.length > 0 then handleGetDashboard w r subMatch fs
    else handleGetDashboards lib w r fs
  else if r.Method = str "POST" then handlePostDashboard w r subMatch fs
  else if r.Method = str "DELETE" then handleDeleteDashboard w r subMatch fs
  else (w.WriteHeader StatusMethodNotAllowed, fs)

/-! ## `main.go` -/

/-- Headers for CORS checks: the three `w.Header().Set` calls that open the
handler built by `makeHandler`. -/
def corsHeaders (w : ResponseWriter) : ResponseWriter :=
  ((w.Set (str "Access-Control-Allow-Methods") (str "DELETE, POST, GET, OPTIONS")).Set
    (str "Access-Control-Allow-Headers")
    (str "Content-Type, Access-Control-Allow-Headers, Authorization, X-Requested-With")).Set
    (str "Access-Control-Allow-Origin") (str "*")

/-- Wrap http handlers to add path checking and CORS. The wrapped handler
`fn` works on a state of any type `σ`. -/
def makeHandler {σ : Type} (fn : ResponseWriter → Request → GoString → σ → ResponseWriter × σ)
    (w : ResponseWriter) (r : Request) (st : σ) : ResponseWriter × σ :=
  let w := corsHeaders w
  if r.Method = str "OPTIONS" then (w.WriteHeader StatusOK, st)
  else
    match FindStringSubmatch validPath 2 r.Path with
    | none => (NotFound w, st)
    | some m => fn w r (m.getD 2 []) st

/-- The loop of `main` over the lines of the ignore-list file. -/
def ignoreLoop (tempList : List GoString) : List GoString :=
  tempList.foldl
    (fun ignoreList path =>
      if path.length > 0 && HasPrefix path (str "/") then ignoreList ++ [path] else ignoreList)
    []

/-- How `main` ends its start-up: with a panic, or listening with the
ignore list it loaded and the dashboard count it printed. -/
inductive Startup where
  | panic (msg : GoString)
  | listening (ignoreList : List GoString) (dashCount : Int)
deriving DecidableEq

/-- The start-up of `main` up to `http.ListenAndServe`. (`envJSON`, the JSON
text of the ignore list, is not modelled.) -/
def main (fs : FS) : Startup :=
  let loaded : List GoString × Bool :=
    match ReadFile fs rosIgnoreListPath with
    | some fileBytes => (ignoreLoop (Split fileBytes 10), true)
    | none => ([], false)
  match ReadDir fs appDir with
  | none => .panic (str "Unable to find './app' directory to serve web app")
  | some _ =>
    match ReadDir fs dataDir with
    | none => .panic (str "Unable to find './data' directory to read dashboard files")
    | some files =>
      .listening loaded.1 (if loaded.2 then (files.length : Int) - 1 else (files.length : Int))

/-! ## Concrete instances used to evaluate the handlers -/

/-- A small stand-in for `encoding/json`: a document is accepted when it is
written between braces, and kept as its text; a map is written with its keys in
order. -/
def sampleJson : Json GoString where
  Unmarshal := fun b =>
    if HasPrefix b (str "\x7b") && HasSuffix b (str "\x7d") then some b else none
  Marshal := fun m =>
    some (str "\x7b" ++ (str ",").intercalate
      ((m.insertionSort (fun a b => bytesLE a.1 b.1 = true)).map
        (fun e => str "\"" ++ e.1 ++ str "\":" ++ e.2))
      ++ str "\x7d")

/-- A wrapped handler that only records the name it was invoked with. -/
def probe (w : ResponseWriter) (_r : Request) (name : GoString) (log : List GoString) :
    ResponseWriter × List GoString :=
  (w, log ++ [name])

/-- A data directory with the dashboard `a.json` and a second file,
`a.b.json`, whose name has the same part before the first `.`. -/
def sharedStemFS : FS :=
  ⟨some [], some [(str "a.json", .file (str "\x7b\x7d")),
    (str "a.b.json", .file (str "\x7b\"x\":1\x7d"))]⟩

/-- A data directory whose only file, `a.json.bak`, has a name that contains
`.json` without ending in it. -/
def backupFS : FS := ⟨some [], some [(str "a.json.bak", .file (str "\x7b\x7d"))]⟩

/-- A data directory with two dashboards, a file that is not JSON and a
soft-deleted dashboard. -/
def mixedDir : Dir :=
  [(str "weather.json", .file (str "\x7b\"a\":1\x7d")), (str "broken.json", .file (str "oops")),
    (str "deleted_old.json", .file (str "\x7b\x7d")), (str "radar.json", .file (str "\x7b\x7d"))]

/-- A dashboard name as the specification describes it: ASCII letters, digits,
space, hyphen and underscore only (possibly empty). -/
def isNameByte (c : UInt8) : Bool :=
  (decide (97 ≤ c) && decide (c ≤ 122)) || (decide (65 ≤ c) && decide (c ≤ 90)) ||
    (decide (48 ≤ c) && decide (c ≤ 57)) || c == 32 || c == 45 || c == 95

/-- Every byte of the name is a name byte. -/
def validName (n : GoString) : Prop := ∀ c ∈ n, isNameByte c = true

instance (n : GoString) : Decidable (validName n) := by
  unfold validName; infer_instance

/-- The part of a file name before its first `.`, the key
`strings.Split(file.Name(), ".")[0]` of the listing. -/
def stem (name : GoString) : GoString := (Split name 46).headD []

/-- A well-formed directory: entry names are legal and pairwise distinct. -/
def Dir.WF (d : Dir) : Prop := (∀ e ∈ d, legalName e.1 = true) ∧ (d.map Prod.fst).Nodup

instance (d : Dir) : Decidable d.WF := by
  unfold Dir.WF; infer_instance

/-- What one round of the loop of `handleGetDashboards` puts into the map for
a listed file: nothing when the file is skipped, else the key and the decoded
document. -/
def dashboardEntry {J : Type} (lib : Json J) (fs : FS) (file : FileInfo) :
    Option (GoString × J) :=
  if file.IsDir || !Contains file.Name (str ".json") || Contains file.Name RemovedPrefix then
    none
  else
    match ReadFile fs (getDashboardPath file.Name) with
    | none => none
    | some b =>
      match lib.Unmarshal b with
      | none => none
      | some temp => some (stem file.Name, temp)

/-! ## Lemmas on strings -/

theorem str_json : str ".json" = [46, 106, 115, 111, 110] := by decide

theorem str_slash : str "/" = [47] := by decide

theorem str_dataDirSlash : str "./data/" = [46, 47, 100, 97, 116, 97, 47] := by decide

theorem dataDir_eq : dataDir = [46, 47, 100, 97, 116, 97] := by decide

theorem removedPrefix_eq : RemovedPrefix = [100, 101, 108, 101, 116, 101, 100, 95] := by decide

theorem hasPrefix_iff (s pre : GoString) : HasPrefix s pre = true ↔ pre <+: s := by
  unfold HasPrefix
  rw [Bool.and_eq_true, decide_eq_true_eq, beq_iff_eq]
  constructor
  · rintro ⟨_, h⟩
    exact h ▸ List.take_prefix _ _
  · intro h
    exact ⟨h.length_le, (List.prefix_iff_eq_take.mp h).symm⟩

theorem hasSuffix_iff (s suf : GoString) : HasSuffix s suf = true ↔ suf <:+ s := by
  unfold HasSuffix
  rw [Bool.and_eq_true, decide_eq_true_eq, beq_iff_eq]
  constructor
  · rintro ⟨_, h⟩
    exact h ▸ List.drop_suffix _ _
  · intro h
    exact ⟨h.length_le, (List.suffix_iff_eq_drop.mp h).symm⟩

theorem contains_iff (s sub : GoString) : Contains s sub = true ↔ sub <:+: s := by
  induction s with
  | nil =>
    simp only [Contains, hasPrefix_iff]
    constructor
    · intro h; exact h.isInfix
    · intro h
      have : sub = [] := List.eq_nil_of_infix_nil h
      subst this; exact List.nil_prefix
  | cons c cs ih =>
    simp only [Contains, Bool.or_eq_true, hasPrefix_iff, ih]
    rw [List.infix_cons_iff]

theorem split_ne_nil (s : GoString) (sep : UInt8) : Split s sep ≠ [] := by
  induction s with
  | nil => simp [Split]
  | cons c cs ih =>
    by_cases h : c = sep
    · simp [Split, h]
    · cases hs : Split cs sep with
      | nil => exact absurd hs ih
      | cons p ps => simp [Split, h, hs]

/-- The first piece of a split is the text before the first separator. -/
theorem split_head (s : GoString) (sep : UInt8) :
    (Split s sep).headD [] = s.takeWhile (fun c => c != sep) := by
  induction s with
  | nil => simp [Split]
  | cons c cs ih =>
    by_cases h : c = sep
    · simp [Split, h]
    · have hne : (c != sep) = true := by simpa using h
      cases hs : Split cs sep with
      | nil => exact absurd hs (split_ne_nil cs sep)
      | cons p ps =>
        rw [hs] at ih
        simp only [List.headD_cons] at ih
        simp only [Split, h, if_false, hs, List.takeWhile_cons, hne, if_true, List.headD_cons, ih]

theorem getDashboardPath_eq (name : GoString) :
    getDashboardPath name =
      str "./data/" ++ (if HasSuffix name (str ".json") = true then name else name ++ str ".json") := by
  unfold getDashboardPath
  rw [dataDir_eq, str_slash, str_dataDirSlash]
  by_cases h : HasSuffix name (str ".json") = true
  · simp [h]
  · simp [h]

/-! ## The path resolver -/

/-- C9, counterexample: the names `a` and `a.json` are different and map to
the same path `./data/a.json`. -/
theorem getDashboardPath_not_injective :
    getDashboardPath (str "a") = getDashboardPath (str "a.json") ∧ str "a" ≠ str "a.json" := by
  decide

/-- C9, as amended: two names that both end in `.json`, or both do not, map
to the same path exactly when they are the same name. -/
theorem getDashboardPath_injective (n1 n2 : GoString)
    (hs : HasSuffix n1 (str ".json") = HasSuffix n2 (str ".json")) :
    getDashboardPath n1 = getDashboardPath n2 ↔ n1 = n2 := by
  constructor
  · intro h
    rw [getDashboardPath_eq, getDashboardPath_eq, ← hs] at h
    have h2 := List.append_cancel_left h
    by_cases hj : HasSuffix n1 (str ".json") = true
    · simpa [hj] using h2
    · simp only [hj] at h2
      exact List.append_cancel_right h2
  · intro h
    rw [h]

theorem getDashboardPath_injective_witness :
    (getDashboardPath (str "weather") = getDashboardPath (str "radar") ↔
      str "weather" = str "radar") :=
  getDashboardPath_injective (str "weather") (str "radar") (by decide)

/-! ## Start-up -/

theorem ignoreLoop_foldl (acc : List GoString) (lines : List GoString) :
    lines.foldl
      (fun ignoreList path =>
        if path.length > 0 && HasPrefix path (str "/") then ignoreList ++ [path] else ignoreList)
      acc = acc ++ lines.filter (fun l => l.head? == some 47) := by
  induction lines generalizing acc with
  | nil => simp
  | cons l ls ih =>
    rw [List.foldl_cons, ih, List.filter_cons]
    have hk : (decide (l.length > 0) && HasPrefix l (str "/")) = (l.head? == some 47) := by
      cases l with
      | nil => decide
      | cons c cs =>
        have : HasPrefix (c :: cs) (str "/") = (c == 47) := by
          simp [HasPrefix, str_slash]
        simp [this]
    rw [hk]
    by_cases hc : (l.head? == some 47) = true
    · simp [hc]
    · simp [hc]

theorem ignoreLoop_eq_filter (lines : List GoString) :
    ignoreLoop lines = lines.filter (fun l => l.head? == some 47) := by
  unfold ignoreLoop
  rw [ignoreLoop_foldl]
  simp

/-- C10: when both directories can be listed, `main` ends listening with an
ignore list that is exactly the lines of the ignore-list file (its content
split on `\n`) that start with `/`, in order and unmodified; when the file
cannot be read the list is empty, and start-up goes on all the same. -/
theorem main_ignoreList (fs : FS) (appFiles files : List FileInfo)
    (happ : ReadDir fs appDir = some appFiles) (hdata : ReadDir fs dataDir = some files) :
    (∀ content, ReadFile fs rosIgnoreListPath = some content →
      main fs = .listening ((Split content 10).filter (fun l => l.head? == some 47))
        ((files.length : Int) - 1)) ∧
    (ReadFile fs rosIgnoreListPath = none → main fs = .listening [] (files.length : Int)) := by
  constructor
  · intro content hc
    simp [main, hc, happ, hdata, ignoreLoop_eq_filter]
  · intro hc
    simp [main, hc, happ, hdata]

theorem main_ignoreList_witness :
    main ⟨some [], some [(str "ros_ignore_list.txt", .file (str "/rosout\nnote\n\n/tf\n")),
      (str "weather.json", .file (str "\x7b\x7d"))]⟩ =
      .listening [str "/rosout", str "/tf"] 1 :=
  ((main_ignoreList
    ⟨some [], some [(str "ros_ignore_list.txt", .file (str "/rosout\nnote\n\n/tf\n")),
      (str "weather.json", .file (str "\x7b\x7d"))]⟩
    [] [⟨str "ros_ignore_list.txt", false⟩, ⟨str "weather.json", false⟩]
    (by decide) (by decide)).1 (str "/rosout\nnote\n\n/tf\n") (by decide)).trans (by decide)

/-! ## Method dispatch -/

/-- C3: `dashboardHandler` runs `handleGetDashboard` on a GET with a non-empty
name, `handleGetDashboards` on a GET with the empty name, `handlePostDashboard`
on a POST and `handleDeleteDashboard` on a DELETE, each with the name it was
given; on any other method it writes status 405 and leaves the file system as
it was. -/
theorem dashboardHandler_dispatch {J : Type} (lib : Json J) (w : ResponseWriter) (r : Request)
    (name : GoString) (fs : FS) :
    (r.Method = str "GET" → name ≠ [] →
      dashboardHandler lib w r name fs = handleGetDashboard w r name fs) ∧
    (r.Method = str "GET" → name = [] →
      dashboardHandler lib w r name fs = handleGetDashboards lib w r fs) ∧
    (r.Method = str "POST" →
      dashboardHandler lib w r name fs = handlePostDashboard w r name fs) ∧
    (r.Method = str "DELETE" →
      dashboardHandler lib w r name fs = handleDeleteDashboard w r name fs) ∧
    (r.Method ≠ str "GET" → r.Method ≠ str "POST" → r.Method ≠ str "DELETE" →
      dashboardHandler lib w r name fs = (w.WriteHeader StatusMethodNotAllowed, fs) ∧
      (w.status = none → (dashboardHandler lib w r name fs).1.statusCode = 405)) := by
  refine ⟨?_, ?_, ?_, ?_, ?_⟩
  · intro hm hn
    have : 0 < name.length := List.length_pos.mpr hn
    simp [dashboardHandler, hm, this]
  · intro hm hn
    simp [dashboardHandler, hm, hn]
  · intro hm
    have h1 : str "POST" ≠ str "GET" := by decide
    simp [dashboardHandler, hm, h1]
  · intro hm
    have h1 : str "DELETE" ≠ str "GET" := by decide
    have h2 : str "DELETE" ≠ str "POST" := by decide
    simp [dashboardHandler, hm, h1, h2]
  · intro h1 h2 h3
    have he : dashboardHandler lib w r name fs = (w.WriteHeader StatusMethodNotAllowed, fs) := by
      simp [dashboardHandler, h1, h2, h3]
    refine ⟨he, ?_⟩
    intro hw
    rw [he]
    obtain ⟨hd, st, bd⟩ := w
    simp only at hw
    subst hw
    rfl

/-! ## The router's pattern -/

theorem run_cat (a b : Regex) (s : MatchState) :
    (Regex.cat a b).run s = ((a.run s).map b.run).flatten := rfl

theorem run_empty (s : MatchState) : Regex.empty.run s = [s] := rfl

theorem run_byte (b : UInt8) (pos : Nat) (rest : GoString) (caps : List (Nat × GoString)) :
    (Regex.byte b).run ⟨pos, rest, caps⟩ =
      match rest with
      | c :: cs => if c = b then [⟨pos + 1, cs, caps⟩] else []
      | [] => [] := rfl

theorem run_cls (ranges : List (UInt8 × UInt8)) (pos : Nat) (rest : GoString)
    (caps : List (Nat × GoString)) :
    (Regex.cls ranges).run ⟨pos, rest, caps⟩ =
      match rest with
      | c :: cs => if inRanges ranges c then [⟨pos + 1, cs, caps⟩] else []
      | [] => [] := rfl

theorem run_bot (pos : Nat) (rest : GoString) (caps : List (Nat × GoString)) :
    Regex.bot.run ⟨pos, rest, caps⟩ = if pos = 0 then [⟨pos, rest, caps⟩] else [] := rfl

theorem run_eot (pos : Nat) (rest : GoString) (caps : List (Nat × GoString)) :
    Regex.eot.run ⟨pos, rest, caps⟩ = if rest = [] then [⟨pos, rest, caps⟩] else [] := rfl

theorem run_group (i : Nat) (a : Regex) (pos : Nat) (rest : GoString)
    (caps : List (Nat × GoString)) :
    (Regex.group i a).run ⟨pos, rest, caps⟩ =
      (a.run ⟨pos, rest, caps⟩).map (fun t =>
        ⟨t.pos, t.rest, (i, rest.take (rest.length - t.rest.length)) :: t.caps⟩) := rfl

theorem starLoop_succ (step : MatchState → List MatchState) (fuel pos : Nat) (rest : GoString)
    (caps : List (Nat × GoString)) :
    starLoop step (fuel + 1) ⟨pos, rest, caps⟩ =
      (((step ⟨pos, rest, caps⟩).filter (fun t => decide (t.rest.length < rest.length))).map
        (starLoop step fuel)).flatten ++ [⟨pos, rest, caps⟩] := rfl

theorem lit_run (l : GoString) (pos : Nat) (rest : GoString) (caps : List (Nat × GoString)) :
    (Regex.lit l).run ⟨pos, rest, caps⟩ =
      if l.isPrefixOf rest = true then [⟨pos + l.length, rest.drop l.length, caps⟩] else [] := by
  induction l generalizing pos rest with
  | nil => simp [Regex.lit, run_empty]
  | cons c cs ih =>
    cases rest with
    | nil => simp [Regex.lit, run_cat, run_byte]
    | cons d ds =>
      by_cases h : d = c
      · subst h
        simp only [Regex.lit, run_cat, run_byte, if_true, List.map_cons, List.map_nil,
          List.flatten_cons, List.flatten_nil, List.append_nil, ih, List.isPrefixOf_cons₂,
          beq_self_eq_true, Bool.true_and, List.length_cons, List.drop_succ_cons]
        have : pos + 1 + cs.length = pos + (cs.length + 1) := by omega
        rw [this]
      · have h2 : (c == d) = false := by
          simpa using fun hcd : c = d => h hcd.symm
        simp only [Regex.lit, run_cat, run_byte, h, if_false, List.map_nil, List.flatten_nil,
          List.isPrefixOf_cons₂, h2, Bool.false_and]
        simp

theorem lit_cat_run (l : GoString) (k : Regex) (pos : Nat) (rest : GoString)
    (caps : List (Nat × GoString)) :
    (Regex.cat (Regex.lit l) k).run ⟨pos, rest, caps⟩ =
      if l.isPrefixOf rest = true then k.run ⟨pos + l.length, rest.drop l.length, caps⟩
      else [] := by
  rw [run_cat, lit_run]
  by_cases h : l.isPrefixOf rest = true
  · simp [h]
  · simp [h]

/-- Greedy iteration of a character class, followed by any continuation `k`
that rejects threads with input left: the only thread that survives is the one
that consumed the whole input, and it needs every byte to be in the class. -/
theorem starLoop_cls_then (ranges : List (UInt8 × UInt8)) (k : MatchState → List MatchState)
    (hk : ∀ t : MatchState, t.rest ≠ [] → k t = [])
    (rest : GoString) (fuel pos : Nat) (caps : List (Nat × GoString))
    (hfuel : rest.length < fuel) :
    ((starLoop (Regex.cls ranges).run fuel ⟨pos, rest, caps⟩).map k).flatten =
      if rest.all (inRanges ranges) = true then k ⟨pos + rest.length, [], caps⟩ else [] := by
  induction rest generalizing fuel pos with
  | nil =>
    cases fuel with
    | zero => simp at hfuel
    | succ f => simp [starLoop_succ, run_cls]
  | cons c cs ih =>
    cases fuel with
    | zero => simp at hfuel
    | succ f =>
      have hf : cs.length < f := by simpa using hfuel
      have hs : k ⟨pos, c :: cs, caps⟩ = [] := hk _ (by simp)
      by_cases hc : inRanges ranges c = true
      · have := ih f (pos + 1) hf
        have e : pos + 1 + cs.length = pos + (cs.length + 1) := by omega
        rw [e] at this
        simp only [starLoop_succ, run_cls, hc, if_true, List.filter_cons, List.length_cons,
          Nat.lt_succ_self, decide_True, List.filter_nil, List.map_cons, List.map_nil,
          List.flatten_cons, List.flatten_nil, List.append_nil, List.map_append,
          List.flatten_append, this, hs, List.all_cons, Bool.true_and]
      · simp [starLoop_succ, run_cls, hc, hs]

theorem group_star_eot_run (i : Nat) (ranges : List (UInt8 × UInt8)) (pos : Nat)
    (rest : GoString) (caps : List (Nat × GoString)) :
    (Regex.cat (.group i (.star (.cls ranges))) .eot).run ⟨pos, rest, caps⟩ =
      if rest.all (inRanges ranges) = true then [⟨pos + rest.length, [], (i, rest) :: caps⟩]
      else [] := by
  have e : (Regex.cat (.group i (.star (.cls ranges))) .eot).run ⟨pos, rest, caps⟩ =
      ((starLoop (Regex.cls ranges).run (rest.length + 1) ⟨pos, rest, caps⟩).map
        (fun t => Regex.eot.run
          ⟨t.pos, t.rest, (i, rest.take (rest.length - t.rest.length)) :: t.caps⟩)).flatten := by
    rw [run_cat, run_group, List.map_map]
    rfl
  rw [e, starLoop_cls_then ranges _ _ rest (rest.length + 1) pos caps (Nat.lt_succ_self _)]
  · simp [run_eot]
  · intro t ht
    simp [run_eot, ht]

theorem isPrefixOf_append (l1 l2 r : GoString) :
    (l1 ++ l2).isPrefixOf r = (l1.isPrefixOf r && l2.isPrefixOf (r.drop l1.length)) := by
  induction l1 generalizing r with
  | nil => simp
  | cons c cs ih =>
    cases r with
    | nil => simp
    | cons d ds =>
      rw [List.cons_append, List.isPrefixOf_cons₂, List.isPrefixOf_cons₂, ih, List.length_cons,
        List.drop_succ_cons, Bool.and_assoc]

theorem group_lit_cat_run (i : Nat) (l : GoString) (k : Regex) (pos : Nat) (rest : GoString)
    (caps : List (Nat × GoString)) :
    (Regex.cat (.group i (Regex.lit l)) k).run ⟨pos, rest, caps⟩ =
      if l.isPrefixOf rest = true then
        k.run ⟨pos + l.length, rest.drop l.length, (i, l) :: caps⟩
      else [] := by
  rw [run_cat, run_group, lit_run]
  by_cases h : l.isPrefixOf rest = true
  · have hp : l <+: rest := List.isPrefixOf_iff_prefix.mp h
    have hlen : l.length ≤ rest.length := hp.length_le
    have ht : rest.take (rest.length - (rest.length - l.length)) = l := by
      have : rest.length - (rest.length - l.length) = l.length := by omega
      rw [this]
      exact (List.prefix_iff_eq_take.mp hp).symm
    simp [h, ht]
  · simp [h]

theorem single_range (k c : UInt8) : (decide (k ≤ c) && decide (c ≤ k)) = (c == k) := by
  rw [Bool.eq_iff_iff]
  simp only [Bool.and_eq_true, decide_eq_true_eq, beq_iff_eq]
  constructor
  · rintro ⟨h1, h2⟩
    have h1n : k.val ≤ c.val := h1
    have h2n : c.val ≤ k.val := h2
    exact UInt8.eq_of_val_eq (le_antisymm h2n h1n)
  · intro h
    subst h
    have : c.val ≤ c.val := le_refl _
    exact ⟨this, this⟩

theorem inRanges_nameClass (c : UInt8) : inRanges nameClass c = isNameByte c := by
  have h95 := single_range 95 c
  have h45 := single_range 45 c
  have h32 := single_range 32 c
  simp only [inRanges, nameClass, isNameByte, List.any_cons, List.any_nil, Bool.or_false, h95,
    h45, h32]
  cases (decide (97 ≤ c) && decide (c ≤ 122)) <;> cases (decide (65 ≤ c) && decide (c ≤ 90)) <;>
    cases (decide (48 ≤ c) && decide (c ≤ 57)) <;> cases (c == 95) <;> cases (c == 45) <;>
    cases (c == 32) <;> rfl

theorem all_nameClass_iff (name : GoString) :
    name.all (inRanges nameClass) = true ↔ validName name := by
  simp [validName, List.all_eq_true, inRanges_nameClass]

theorem str_prefix_split :
    str "/v0/dashboard/" = str "/v0/" ++ (str "dashboard" ++ str "/") := by decide

/-- What the pattern `validPath` matches when started at offset 0: the whole
path, provided it is `/v0/dashboard/` followed by bytes of the class only. -/
theorem validPath_run (path : GoString) :
    validPath.run ⟨0, path, []⟩ =
      if (str "/v0/dashboard/").isPrefixOf path = true ∧
          (path.drop 14).all (inRanges nameClass) = true then
        [⟨14 + (path.drop 14).length, [], [(2, path.drop 14), (1, str "dashboard")]⟩]
      else [] := by
  have hA : (str "/v0/").length = 4 := by decide
  have hB : (str "dashboard").length = 9 := by decide
  have hC : (str "/").length = 1 := by decide
  rw [str_prefix_split, isPrefixOf_append, isPrefixOf_append, hA, hB]
  unfold validPath
  rw [run_cat, run_bot]
  simp only [if_true, List.map_cons, List.map_nil, List.flatten_cons, List.flatten_nil,
    List.append_nil, lit_cat_run, group_lit_cat_run, group_star_eot_run, hA, hB, hC,
    List.drop_drop, Bool.and_eq_true]
  by_cases h1 : (str "/v0/").isPrefixOf path = true
  · by_cases h2 : (str "dashboard").isPrefixOf (path.drop 4) = true
    · by_cases h3 : (str "/").isPrefixOf (path.drop (4 + 9)) = true
      · by_cases h4 : (path.drop 14).all (inRanges nameClass) = true
        · simp [h1, h2, h3, h4]
        · simp [h1, h2, h3, h4]
      · simp [h1, h2, h3]
    · simp [h1, h2]
  · simp [h1]

theorem validPath_run_pos (path : GoString) (pos : Nat) (caps : List (Nat × GoString)) :
    validPath.run ⟨pos + 1, path, caps⟩ = [] := by
  unfold validPath
  rw [run_cat, run_bot]
  simp

theorem searchFrom_validPath_pos (path : GoString) (pos : Nat) :
    searchFrom validPath (pos + 1) path = none := by
  induction path generalizing pos with
  | nil => simp [searchFrom, matchAt, validPath_run_pos]
  | cons c cs ih => simp [searchFrom, matchAt, validPath_run_pos, ih]

/-- What `validPath.FindStringSubmatch` returns: `nil` unless the path is
`/v0/dashboard/` followed by a valid name, and then the path, `dashboard` and
that name. -/
theorem findStringSubmatch_validPath (path : GoString) :
    FindStringSubmatch validPath 2 path =
      if (str "/v0/dashboard/").isPrefixOf path = true ∧ validName (path.drop 14) then
        some [path, str "dashboard", path.drop 14]
      else none := by
  have hs : searchFrom validPath 0 path = matchAt validPath 0 path := by
    cases path with
    | nil => rfl
    | cons c cs =>
      simp only [searchFrom]
      rw [searchFrom_validPath_pos]
      cases matchAt validPath 0 (c :: cs) <;> rfl
  unfold FindStringSubmatch
  rw [hs]
  unfold matchAt
  rw [validPath_run]
  by_cases h : (str "/v0/dashboard/").isPrefixOf path = true ∧ validName (path.drop 14)
  · have h2 := h
    rw [← all_nameClass_iff] at h2
    rw [if_pos h, if_pos h2]
    simp [capture, List.range_succ]
  · have h2 := h
    rw [← all_nameClass_iff] at h2
    rw [if_neg h, if_neg h2]

/-! ## The request router -/

theorem set_status (w : ResponseWriter) (k v : GoString) : (w.Set k v).status = w.status := by
  obtain ⟨hd, st, bd⟩ := w
  cases st <;> rfl

theorem corsHeaders_status (w : ResponseWriter) : (corsHeaders w).status = w.status := by
  simp [corsHeaders, set_status]

theorem writeHeader_statusCode (w : ResponseWriter) (code : Nat) (hw : w.status = none) :
    (w.WriteHeader code).statusCode = code := by
  obtain ⟨hd, st, bd⟩ := w
  simp only at hw
  subst hw
  rfl

theorem notFound_statusCode (w : ResponseWriter) (hw : w.status = none) :
    (NotFound w).statusCode = 404 := by
  obtain ⟨hd, st, bd⟩ := w
  simp only at hw
  subst hw
  rfl

theorem makeHandler_of_match {σ : Type}
    (fn : ResponseWriter → Request → GoString → σ → ResponseWriter × σ)
    (w : ResponseWriter) (r : Request) (st : σ) (hm : r.Method ≠ str "OPTIONS")
    (name : GoString) (hp : r.Path = str "/v0/dashboard/" ++ name) (hn : validName name) :
    makeHandler fn w r st = fn (corsHeaders w) r name st := by
  have hlen : (str "/v0/dashboard/").length = 14 := by decide
  have hd : r.Path.drop 14 = name := by
    rw [hp, ← hlen, List.drop_left]
  have hpre : (str "/v0/dashboard/").isPrefixOf r.Path = true := by
    rw [List.isPrefixOf_iff_prefix, hp]
    exact List.prefix_append _ _
  unfold makeHandler
  simp only [hm, if_false]
  rw [findStringSubmatch_validPath, if_pos ⟨hpre, hd ▸ hn⟩, hd]
  rfl

theorem makeHandler_of_no_match {σ : Type}
    (fn : ResponseWriter → Request → GoString → σ → ResponseWriter × σ)
    (w : ResponseWriter) (r : Request) (st : σ) (hm : r.Method ≠ str "OPTIONS")
    (hp : ¬ ∃ name, r.Path = str "/v0/dashboard/" ++ name ∧ validName name) :
    makeHandler fn w r st = (NotFound (corsHeaders w), st) := by
  have hlen : (str "/v0/dashboard/").length = 14 := by decide
  unfold makeHandler
  simp only [hm, if_false]
  rw [findStringSubmatch_validPath, if_neg]
  rintro ⟨hpre, hn⟩
  apply hp
  refine ⟨r.Path.drop 14, ?_, hn⟩
  have := List.prefix_iff_eq_append.mp (List.isPrefixOf_iff_prefix.mp hpre)
  rw [hlen] at this
  exact this.symm

/-- C4: for a request whose method is not `OPTIONS`, the handler built by
`makeHandler` hands the request to the wrapped handler exactly when the URL path
is `/v0/dashboard/` followed by a (possibly empty) string of ASCII letters,
digits, space, hyphen and underscore, and passes that string as the name; on
every other path it answers 404 and the wrapped handler is not run (the state
it works on is untouched and the recording handler records nothing). -/
theorem makeHandler_path_matching {σ : Type}
    (fn : ResponseWriter → Request → GoString → σ → ResponseWriter × σ)
    (w : ResponseWriter) (r : Request) (st : σ) (hm : r.Method ≠ str "OPTIONS") :
    (∀ name, r.Path = str "/v0/dashboard/" ++ name → validName name →
      makeHandler fn w r st = fn (corsHeaders w) r name st) ∧
    ((¬ ∃ name, r.Path = str "/v0/dashboard/" ++ name ∧ validName name) →
      makeHandler fn w r st = (NotFound (corsHeaders w), st) ∧
      (w.status = none → (makeHandler fn w r st).1.statusCode = 404)) ∧
    (∀ name log, (makeHandler probe w r log).2 = log ++ [name] ↔
      (r.Path = str "/v0/dashboard/" ++ name ∧ validName name)) ∧
    ((¬ ∃ name, r.Path = str "/v0/dashboard/" ++ name ∧ validName name) →
      ∀ log, (makeHandler probe w r log).2 = log) := by
  refine ⟨fun name hp hn => makeHandler_of_match fn w r st hm name hp hn, ?_, ?_, ?_⟩
  · intro hp
    have he := makeHandler_of_no_match fn w r st hm hp
    refine ⟨he, fun hw => ?_⟩
    rw [he]
    exact notFound_statusCode _ (by rw [corsHeaders_status]; exact hw)
  · intro name log
    constructor
    · intro h
      by_cases hp : ∃ name, r.Path = str "/v0/dashboard/" ++ name ∧ validName name
      · obtain ⟨name1, hp1, hn1⟩ := hp
        rw [makeHandler_of_match probe w r log hm name1 hp1 hn1] at h
        simp only [probe] at h
        have : name1 = name := by simpa using h
        exact this ▸ ⟨hp1, hn1⟩
      · rw [makeHandler_of_no_match probe w r log hm hp] at h
        have := congrArg List.length h
        simp at this
    · rintro ⟨hp, hn⟩
      rw [makeHandler_of_match probe w r log hm name hp hn]
      rfl
  · intro hp log
    rw [makeHandler_of_no_match probe w r log hm hp]

theorem makeHandler_path_matching_witness :
    (makeHandler probe .new ⟨str "GET", str "/v0/dashboard/my board-1_a", some []⟩ []).2 =
        [str "my board-1_a"] ∧
      (makeHandler probe .new ⟨str "GET", str "/v0/dashboard/a.json", some []⟩ []).2 = [] ∧
      (makeHandler probe .new ⟨str "GET", str "/v0/dashboard/a.json", some []⟩ []).1.statusCode
        = 404 :=
  ⟨((makeHandler_path_matching probe .new
      ⟨str "GET", str "/v0/dashboard/my board-1_a", some []⟩ [] (by decide)).2.2.1
      (str "my board-1_a") []).mpr ⟨by decide, by decide⟩,
    by decide, by decide⟩

/-- C5, counterexample: a pre-flight request whose method is written in lower
case is not short-circuited: the wrapped handler is invoked (with the name `x`)
and `dashboardHandler` answers 405. -/
theorem preflight_lower_case_reaches_handler :
    (makeHandler probe .new ⟨str "options", str "/v0/dashboard/x", some []⟩ []).2 = [str "x"] ∧
      (makeHandler (dashboardHandler sampleJson) .new
        ⟨str "options", str "/v0/dashboard/x", some []⟩ ⟨some [], some []⟩).1.statusCode = 405 := by
  decide

/-- C5, as amended: a request whose method is exactly `OPTIONS` (upper case),
with any path and any payload, is answered 200 with the three cross-origin
headers set, and the wrapped handler is never invoked: the answer is the same
for every wrapped handler, the state is untouched and the recording handler
records nothing. -/
theorem makeHandler_preflight {σ : Type}
    (fn : ResponseWriter → Request → GoString → σ → ResponseWriter × σ)
    (w : ResponseWriter) (r : Request) (st : σ)
    (hm : r.Method = str "OPTIONS") (hw : w.status = none) :
    makeHandler fn w r st = ((corsHeaders w).WriteHeader StatusOK, st) ∧
    (makeHandler fn w r st).1.statusCode = 200 ∧
    (makeHandler fn w r st).1.Get (str "Access-Control-Allow-Origin") = some (str "*") ∧
    (makeHandler fn w r st).1.Get (str "Access-Control-Allow-Methods") =
      some (str "DELETE, POST, GET, OPTIONS") ∧
    (makeHandler fn w r st).1.Get (str "Access-Control-Allow-Headers") =
      some (str "Content-Type, Access-Control-Allow-Headers, Authorization, X-Requested-With") ∧
    (∀ log, (makeHandler probe w r log).2 = log) := by
  have he : ∀ {τ : Type} (g : ResponseWriter → Request → GoString → τ → ResponseWriter × τ)
      (s : τ), makeHandler g w r s = ((corsHeaders w).WriteHeader StatusOK, s) := by
    intro τ g s
    simp [makeHandler, hm]
  have k1 : (str "Access-Control-Allow-Origin" == str "Access-Control-Allow-Headers") = false := by
    decide
  have k2 : (str "Access-Control-Allow-Origin" == str "Access-Control-Allow-Methods") = false := by
    decide
  have k3 : (str "Access-Control-Allow-Headers" == str "Access-Control-Allow-Methods") = false := by
    decide
  have k4 : (str "Access-Control-Allow-Headers" == str "Access-Control-Allow-Origin") = false := by
    decide
  have k5 : (str "Access-Control-Allow-Methods" == str "Access-Control-Allow-Origin") = false := by
    decide
  have k6 : (str "Access-Control-Allow-Methods" == str "Access-Control-Allow-Headers") = false := by
    decide
  obtain ⟨hd, stt, bd⟩ := w
  simp only at hw
  subst hw
  refine ⟨he fn st, ?_, ?_, ?_, ?_, fun log => by rw [he probe log]⟩
  · rw [he fn st]; rfl
  · rw [he fn st]
    simp [corsHeaders, ResponseWriter.Set, ResponseWriter.WriteHeader, ResponseWriter.Get,
      List.lookup]
  · rw [he fn st]
    simp [corsHeaders, ResponseWriter.Set, ResponseWriter.WriteHeader, ResponseWriter.Get,
      List.lookup, List.filter, k1, k2, k3, k4, k5, k6]
  · rw [he fn st]
    simp [corsHeaders, ResponseWriter.Set, ResponseWriter.WriteHeader, ResponseWriter.Get,
      List.lookup, List.filter, k1, k2, k3, k4, k5, k6]

theorem makeHandler_preflight_witness :
    (makeHandler (dashboardHandler sampleJson) .new
      ⟨str "OPTIONS", str "/anything", some (str "payload")⟩ ⟨some [], some []⟩).1.statusCode
      = 200 :=
  (makeHandler_preflight (dashboardHandler sampleJson) .new
    ⟨str "OPTIONS", str "/anything", some (str "payload")⟩ ⟨some [], some []⟩
    (by decide) rfl).2.1

/-! ## The file system model -/

theorem lookup_erase_self (d : Dir) (n : GoString) : (d.erase n).lookup n = none := by
  induction d with
  | nil => rfl
  | cons e es ih =>
    obtain ⟨k, v⟩ := e
    by_cases h : k = n
    · subst h
      simpa [Dir.erase, List.filter_cons] using ih
    · have h1 : (k != n) = true := by simpa using h
      have h2 : (n == k) = false := by simpa using fun hh : n = k => h hh.symm
      simp only [Dir.erase, List.filter_cons, h1, if_true, List.lookup_cons, h2]
      exact ih

theorem lookup_erase_ne (d : Dir) (n m : GoString) (hne : m ≠ n) :
    (d.erase n).lookup m = d.lookup m := by
  induction d with
  | nil => rfl
  | cons e es ih =>
    obtain ⟨k, v⟩ := e
    by_cases h : k = n
    · subst h
      have h2 : (m == k) = false := by simpa using hne
      have h3 : (k != k) = false := by simp
      simp only [Dir.erase, List.filter_cons, h3, List.lookup_cons, h2]
      exact ih
    · have h1 : (k != n) = true := by simpa using h
      simp only [Dir.erase, List.filter_cons, h1, if_true, List.lookup_cons]
      cases hmk : (m == k)
      · exact ih
      · rfl

theorem lookup_put_self (d : Dir) (n : GoString) (x : Node) : (d.put n x).lookup n = some x := by
  simp [Dir.put, List.lookup_cons]

theorem lookup_put_ne (d : Dir) (n m : GoString) (x : Node) (hne : m ≠ n) :
    (d.put n x).lookup m = d.lookup m := by
  have h2 : (m == n) = false := by simpa using hne
  simp only [Dir.put, List.lookup_cons, h2]
  exact lookup_erase_ne d n m hne

theorem mem_erase_iff (d : Dir) (n : GoString) (e : GoString × Node) :
    e ∈ d.erase n ↔ e ∈ d ∧ e.1 ≠ n := by
  simp [Dir.erase, List.mem_filter]

theorem mem_put_iff (d : Dir) (n : GoString) (x : Node) (e : GoString × Node) :
    e ∈ d.put n x ↔ e = (n, x) ∨ (e ∈ d ∧ e.1 ≠ n) := by
  simp [Dir.put, mem_erase_iff]

theorem mem_of_lookup (d : Dir) (n : GoString) (x : Node) (h : d.lookup n = some x) :
    (n, x) ∈ d := by
  induction d with
  | nil => simp at h
  | cons e es ih =>
    obtain ⟨k, v⟩ := e
    rw [List.lookup_cons] at h
    cases hnk : (n == k)
    · rw [hnk] at h
      exact List.mem_cons_of_mem _ (ih h)
    · rw [hnk] at h
      have : n = k := by simpa using hnk
      simp only [Option.some.injEq] at h
      subst this
      subst h
      exact List.mem_cons_self _ _

theorem legalName_iff (n : GoString) :
    legalName n = true ↔ n ≠ [] ∧ n ≠ str "." ∧ n ≠ str ".." ∧ (47 : UInt8) ∉ n ∧ (0 : UInt8) ∉ n := by
  simp [legalName, and_assoc]

/-- A valid name does not end in `.json`: it holds no `.` at all. -/
theorem hasSuffix_json_of_valid (n : GoString) (hn : validName n) :
    HasSuffix n (str ".json") = false := by
  cases h : HasSuffix n (str ".json")
  · rfl
  · exfalso
    have hs := (hasSuffix_iff _ _).mp h
    have hmem : (46 : UInt8) ∈ n := hs.subset (by rw [str_json]; simp)
    have := hn 46 hmem
    revert this
    decide

theorem legalName_valid_json (n : GoString) (hn : validName n) :
    legalName (n ++ str ".json") = true := by
  rw [legalName_iff]
  have h47 : (47 : UInt8) ∉ n := fun h => by
    have := hn 47 h
    revert this
    decide
  have h0 : (0 : UInt8) ∉ n := fun h => by
    have := hn 0 h
    revert this
    decide
  have hlen : (n ++ str ".json").length = n.length + 5 := by
    rw [List.length_append, str_json]; rfl
  refine ⟨?_, ?_, ?_, ?_, ?_⟩
  · intro h
    rw [h] at hlen
    simp at hlen
  · intro h
    rw [h] at hlen
    have : (str ".").length = 1 := by decide
    omega
  · intro h
    rw [h] at hlen
    have : (str "..").length = 2 := by decide
    omega
  · rw [List.mem_append, str_json]
    simp [h47]
  · rw [List.mem_append, str_json]
    simp [h0]

theorem resolve_data (name : GoString) (h : legalName name = true) :
    resolve (str "./data/" ++ name) = some name := by
  have hp : HasPrefix (str "./data/" ++ name) (str "./data/") = true :=
    (hasPrefix_iff _ _).mpr (List.prefix_append _ _)
  have hd : (str "./data/" ++ name).drop 7 = name := by
    have : (str "./data/").length = 7 := by decide
    rw [← this, List.drop_left]
  simp [resolve, hp, hd, h]

theorem getDashboardPath_valid (n : GoString) (hn : validName n) :
    getDashboardPath n = str "./data/" ++ (n ++ str ".json") := by
  rw [getDashboardPath_eq, hasSuffix_json_of_valid n hn]
  simp

theorem resolve_valid (n : GoString) (hn : validName n) :
    resolve (getDashboardPath n) = some (n ++ str ".json") := by
  rw [getDashboardPath_valid n hn]
  exact resolve_data _ (legalName_valid_json n hn)

theorem validName_removed (n : GoString) (hn : validName n) : validName (RemovedPrefix ++ n) := by
  intro c hc
  rw [List.mem_append] at hc
  rcases hc with hc | hc
  · have : ∀ c ∈ RemovedPrefix, isNameByte c = true := by decide
    exact this c hc
  · exact hn c hc

theorem removed_ne (n : GoString) : n ++ str ".json" ≠ RemovedPrefix ++ n ++ str ".json" := by
  intro h
  have := congrArg List.length h
  rw [removedPrefix_eq] at this
  simp only [List.length_append, List.length_cons, List.length_nil] at this
  omega

theorem readFile_eq (app : Option Dir) (d : Dir) (path name : GoString)
    (hr : resolve path = some name) :
    ReadFile ⟨app, some d⟩ path =
      match d.lookup name with
      | some (.file content) => some content
      | _ => none := by
  simp [ReadFile, hr]

/-- A successful write is read back unchanged. -/
theorem readFile_after_write (fs fs1 : FS) (path data : GoString)
    (h : WriteFile fs path data = some fs1) : ReadFile fs1 path = some data := by
  obtain ⟨app, dd⟩ := fs
  cases dd with
  | none => simp [WriteFile] at h
  | some d =>
    cases hr : resolve path with
    | none => simp [WriteFile, hr] at h
    | some name =>
      have key : fs1 = ⟨app, some (d.put name (.file data))⟩ := by
        cases hl : d.lookup name with
        | none => simp [WriteFile, hr, hl] at h; exact h.symm
        | some node =>
          cases node with
          | dir => simp [WriteFile, hr, hl] at h
          | file c => simp [WriteFile, hr, hl] at h; exact h.symm
      rw [key, readFile_eq app _ path name hr, lookup_put_self]

/-! ### Well-formed directories stay well-formed -/

theorem erase_wf (d : Dir) (n : GoString) (h : d.WF) : (d.erase n).WF := by
  refine ⟨fun e he => h.1 e ((mem_erase_iff d n e).mp he).1, ?_⟩
  exact h.2.sublist ((List.filter_sublist d).map Prod.fst)

theorem put_wf (d : Dir) (n : GoString) (x : Node) (hn : legalName n = true) (h : d.WF) :
    (d.put n x).WF := by
  have he := erase_wf d n h
  refine ⟨?_, ?_⟩
  · intro e hmem
    rcases (mem_put_iff d n x e).mp hmem with heq | ⟨hm, _⟩
    · rw [heq]; exact hn
    · exact h.1 e hm
  · show (n :: (d.erase n).map Prod.fst).Nodup
    rw [List.nodup_cons]
    refine ⟨?_, he.2⟩
    intro hmem
    obtain ⟨e, hed, hfst⟩ := List.mem_map.mp hmem
    exact ((mem_erase_iff d n e).mp hed).2 hfst

theorem legalName_of_resolve (path n : GoString) (h : resolve path = some n) :
    legalName n = true := by
  unfold resolve at h
  by_cases hp : HasPrefix path (str "./data/") = true
  · by_cases hl : legalName (path.drop 7) = true
    · simp only [hp, hl, if_true, Option.some.injEq] at h
      rw [← h]; exact hl
    · simp [hp, hl] at h
  · simp [hp] at h

/-- A write that succeeds on a well-formed data directory leaves it well-formed. -/
theorem writeFile_wf (app app1 : Option Dir) (d d1 : Dir) (path data : GoString) (h : d.WF)
    (hw : WriteFile ⟨app, some d⟩ path data = some ⟨app1, some d1⟩) : d1.WF := by
  cases hr : resolve path with
  | none => simp [WriteFile, hr] at hw
  | some n =>
    have hn := legalName_of_resolve path n hr
    have key : d1 = d.put n (.file data) := by
      cases hl : d.lookup n with
      | none => simp [WriteFile, hr, hl] at hw; exact hw.2.symm
      | some node =>
        cases node with
        | dir => simp [WriteFile, hr, hl] at hw
        | file c => simp [WriteFile, hr, hl] at hw; exact hw.2.symm
    rw [key]
    exact put_wf d n _ hn h

/-- A rename that succeeds on a well-formed data directory leaves it well-formed. -/
theorem rename_wf (app app1 : Option Dir) (d d1 : Dir) (oldpath newpath : GoString) (h : d.WF)
    (hr : Rename ⟨app, some d⟩ oldpath newpath = some ⟨app1, some d1⟩) : d1.WF := by
  cases ho : resolve oldpath with
  | none => simp [Rename, ho] at hr
  | some o =>
    cases hn : resolve newpath with
    | none => simp [Rename, ho, hn] at hr
    | some n =>
      have hln := legalName_of_resolve newpath n hn
      cases hs : d.lookup o with
      | none => simp [Rename, ho, hn, hs] at hr
      | some src =>
        have key : d1 = (d.erase o).put n src := by
          simp only [Rename, ho, hn, hs] at hr
          cases hl : d.lookup n with
          | none => simp [hl] at hr; exact hr.2.symm
          | some node =>
            cases node with
            | dir => simp [hl] at hr
            | file c =>
              cases src with
              | dir => simp [hl] at hr
              | file c2 => simp [hl] at hr; exact hr.2.symm
        rw [key]
        exact put_wf _ n _ hln (erase_wf d o h)

/-! ## Put and Get -/

/-- C1: for a valid name `n` and a request body `b`, on every file-system state
in which the write of `handlePostDashboard` succeeds, the POST leaves the
response without an error status, and a `handleGetDashboard` of `n` on the state
the POST left answers 200 with `Content-Type: application/json` and a body
equal to `b`, byte for byte. -/
theorem post_then_get_roundtrip (n b : GoString) (fs fs1 : FS) (w1 w2 : ResponseWriter)
    (r1 r2 : Request) (_hn : validName n) (hb : r1.Body = some b)
    (hwrite : WriteFile fs (getDashboardPath n) b = some fs1)
    (hw2 : w2.status = none) (hbody : w2.body = []) :
    handlePostDashboard w1 r1 n fs = (w1, fs1) ∧
    handleGetDashboard w2 r2 n fs1 =
      ((w2.Set (str "Content-Type") (str "application/json")).Write b, fs1) ∧
    (handleGetDashboard w2 r2 n fs1).1.body = b ∧
    (handleGetDashboard w2 r2 n fs1).1.Get (str "Content-Type") = some (str "application/json") ∧
    (handleGetDashboard w2 r2 n fs1).1.statusCode = 200 := by
  have hget : handleGetDashboard w2 r2 n fs1 =
      ((w2.Set (str "Content-Type") (str "application/json")).Write b, fs1) := by
    simp [handleGetDashboard, readFile_after_write fs fs1 _ b hwrite]
  obtain ⟨hd, st, bd⟩ := w2
  simp only at hw2 hbody
  subst hw2
  subst hbody
  refine ⟨by simp [handlePostDashboard, hb, hwrite], hget, ?_, ?_, ?_⟩
  · rw [hget]
    simp [ResponseWriter.Set, ResponseWriter.Write]
  · rw [hget]
    simp [ResponseWriter.Set, ResponseWriter.Write, ResponseWriter.Get, List.lookup]
  · rw [hget]
    rfl

theorem post_then_get_roundtrip_witness :
    (handleGetDashboard .new ⟨str "GET", str "/v0/dashboard/weather", some []⟩ (str "weather")
      ⟨some [], some [(str "weather.json", .file (str "\x7b\"a\":1\x7d"))]⟩).1.body =
      str "\x7b\"a\":1\x7d" :=
  (post_then_get_roundtrip (str "weather") (str "\x7b\"a\":1\x7d")
    ⟨some [], some []⟩ ⟨some [], some [(str "weather.json", .file (str "\x7b\"a\":1\x7d"))]⟩
    .new .new ⟨str "POST", str "/v0/dashboard/weather", some (str "\x7b\"a\":1\x7d")⟩
    ⟨str "GET", str "/v0/dashboard/weather", some []⟩
    (by decide) rfl (by decide) rfl rfl).2.2.1

/-! ## Delete -/

theorem rename_valid (app : Option Dir) (d : Dir) (n : GoString) (hn : validName n) :
    Rename ⟨app, some d⟩ (getDashboardPath n) (getDashboardPath (RemovedPrefix ++ n)) =
      match d.lookup (n ++ str ".json") with
      | none => none
      | some src =>
        match d.lookup (RemovedPrefix ++ n ++ str ".json"), src with
        | some .dir, _ => none
        | some (.file _), .dir => none
        | _, _ =>
          some ⟨app, some ((d.erase (n ++ str ".json")).put (RemovedPrefix ++ n ++ str ".json") src)⟩ := by
  simp only [Rename, resolve_valid n hn, resolve_valid _ (validName_removed n hn)]

/-- C8, counterexample: `a.json` exists, but `deleted_a.json` is a directory;
the rename fails and the first DELETE of `a` answers 500, not 200. -/
theorem delete_existing_can_fail :
    ReadFile ⟨some [], some [(str "a.json", .file (str "\x7b\x7d")), (str "deleted_a.json", .dir)]⟩
        (getDashboardPath (str "a")) = some (str "\x7b\x7d") ∧
      (handleDeleteDashboard .new ⟨str "DELETE", str "/v0/dashboard/a", some []⟩ (str "a")
        ⟨some [], some [(str "a.json", .file (str "\x7b\x7d")),
          (str "deleted_a.json", .dir)]⟩).1.statusCode = 500 := by
  decide

/-- What a successful rename of `n.json` to `deleted_n.json` leaves: the
source node under the new name, and no entry under the old one. -/
theorem rename_valid_some (app : Option Dir) (d : Dir) (n : GoString) (fs1 : FS)
    (hn : validName n)
    (h : Rename ⟨app, some d⟩ (getDashboardPath n) (getDashboardPath (RemovedPrefix ++ n)) =
      some fs1) :
    ∃ src, d.lookup (n ++ str ".json") = some src ∧
      fs1 = ⟨app, some ((d.erase (n ++ str ".json")).put (RemovedPrefix ++ n ++ str ".json") src)⟩ := by
  rw [rename_valid app d n hn] at h
  cases hs : d.lookup (n ++ str ".json") with
  | none => rw [hs] at h; cases h
  | some src =>
    rw [hs] at h
    refine ⟨src, rfl, ?_⟩
    cases hl : d.lookup (RemovedPrefix ++ n ++ str ".json") with
    | none =>
      rw [hl] at h
      exact (Option.some.inj h).symm
    | some node =>
      rw [hl] at h
      cases node with
      | dir => cases h
      | file c =>
        cases src with
        | dir => cases h
        | file c2 => exact (Option.some.inj h).symm

/-- C8, as amended: for a valid name `n` and a file-system state in which the
rename of `n.json` to `deleted_n.json` succeeds, `handleDeleteDashboard(n)`
answers 200, and a second `handleDeleteDashboard(n)` issued right after answers
500 and leaves the data directory as the first one left it: the source file
no longer exists. -/
theorem delete_twice (n : GoString) (fs fs1 : FS) (w1 w2 : ResponseWriter) (r1 r2 : Request)
    (hn : validName n)
    (hren : Rename fs (getDashboardPath n) (getDashboardPath (RemovedPrefix ++ n)) = some fs1)
    (hw1 : w1.status = none) (hw2 : w2.status = none) :
    handleDeleteDashboard w1 r1 n fs = (w1.WriteHeader StatusOK, fs1) ∧
    (handleDeleteDashboard w1 r1 n fs).1.statusCode = 200 ∧
    ReadFile fs1 (getDashboardPath n) = none ∧
    handleDeleteDashboard w2 r2 n fs1 = (w2.WriteHeader StatusInternalServerError, fs1) ∧
    (handleDeleteDashboard w2 r2 n fs1).1.statusCode = 500 := by
  have e1 : handleDeleteDashboard w1 r1 n fs = (w1.WriteHeader StatusOK, fs1) := by
    simp only [handleDeleteDashboard, hren]
  obtain ⟨app, dd⟩ := fs
  cases dd with
  | none => simp [Rename] at hren
  | some d =>
    obtain ⟨src, _, hfs1⟩ := rename_valid_some app d n fs1 hn hren
    subst hfs1
    have hgone : ((d.erase (n ++ str ".json")).put (RemovedPrefix ++ n ++ str ".json") src).lookup
        (n ++ str ".json") = none := by
      rw [lookup_put_ne _ _ _ _ (removed_ne n), lookup_erase_self]
    have h2 : Rename
        ⟨app, some ((d.erase (n ++ str ".json")).put (RemovedPrefix ++ n ++ str ".json") src)⟩
        (getDashboardPath n) (getDashboardPath (RemovedPrefix ++ n)) = none := by
      rw [rename_valid app _ n hn, hgone]
    have e2 : handleDeleteDashboard w2 r2 n
        ⟨app, some ((d.erase (n ++ str ".json")).put (RemovedPrefix ++ n ++ str ".json") src)⟩ =
        (w2.WriteHeader StatusInternalServerError,
          ⟨app, some ((d.erase (n ++ str ".json")).put (RemovedPrefix ++ n ++ str ".json") src)⟩) := by
      simp only [handleDeleteDashboard, h2]
    refine ⟨e1, ?_, ?_, e2, ?_⟩
    · rw [e1]
      exact writeHeader_statusCode w1 _ hw1
    · rw [readFile_eq app _ _ _ (resolve_valid n hn), hgone]
    · rw [e2]
      exact writeHeader_statusCode w2 _ hw2

theorem delete_twice_witness :
    (handleDeleteDashboard .new ⟨str "DELETE", str "/v0/dashboard/weather", some []⟩ (str "weather")
        ⟨some [], some mixedDir⟩).1.statusCode = 200 ∧
      (handleDeleteDashboard .new ⟨str "DELETE", str "/v0/dashboard/weather", some []⟩
        (str "weather")
        ⟨some [], some [(str "deleted_weather.json", .file (str "\x7b\"a\":1\x7d")),
          (str "broken.json", .file (str "oops")),
          (str "deleted_old.json", .file (str "\x7b\x7d")),
          (str "radar.json", .file (str "\x7b\x7d"))]⟩).1.statusCode = 500 :=
  ⟨(delete_twice (str "weather") ⟨some [], some mixedDir⟩
      ⟨some [], some [(str "deleted_weather.json", .file (str "\x7b\"a\":1\x7d")),
        (str "broken.json", .file (str "oops")),
        (str "deleted_old.json", .file (str "\x7b\x7d")),
        (str "radar.json", .file (str "\x7b\x7d"))]⟩
      .new .new ⟨str "DELETE", str "/v0/dashboard/weather", some []⟩
      ⟨str "DELETE", str "/v0/dashboard/weather", some []⟩
      (by decide) (by decide) rfl rfl).2.1,
    (delete_twice (str "weather") ⟨some [], some mixedDir⟩
      ⟨some [], some [(str "deleted_weather.json", .file (str "\x7b\"a\":1\x7d")),
        (str "broken.json", .file (str "oops")),
        (str "deleted_old.json", .file (str "\x7b\x7d")),
        (str "radar.json", .file (str "\x7b\x7d"))]⟩
      .new .new ⟨str "DELETE", str "/v0/dashboard/weather", some []⟩
      ⟨str "DELETE", str "/v0/dashboard/weather", some []⟩
      (by decide) (by decide) rfl rfl).2.2.2.2⟩

/-! ## The listing -/

theorem readDir_data (app : Option Dir) (d : Dir) :
    ReadDir ⟨app, some d⟩ dataDir = some (listing d) := by
  simp [ReadDir]

theorem mem_listing (d : Dir) (f : FileInfo) :
    f ∈ listing d ↔ ∃ e ∈ d, f = ⟨e.1, decide (e.2 = Node.dir)⟩ := by
  unfold listing
  rw [List.mem_insertionSort, List.mem_map]
  constructor
  · rintro ⟨e, he, rfl⟩
    exact ⟨e, he, rfl⟩
  · rintro ⟨e, he, rfl⟩
    exact ⟨e, he, rfl⟩

theorem dashboardStep_eq {J : Type} (lib : Json J) (fs : FS) (m : List (GoString × J))
    (f : FileInfo) :
    dashboardStep lib fs m f =
      match dashboardEntry lib fs f with
      | none => m
      | some e => mapSet m e.1 e.2 := by
  unfold dashboardStep dashboardEntry
  by_cases hc : (f.IsDir || !Contains f.Name (str ".json") || Contains f.Name RemovedPrefix) = true
  · simp only [hc, if_true]
  · simp only [hc, Bool.false_eq_true, if_false]
    cases hr : ReadFile fs (getDashboardPath f.Name) with
    | none => rfl
    | some b =>
      simp only []
      cases hu : lib.Unmarshal b with
      | none => rfl
      | some temp => rfl

theorem dashboardEntry_eq_some {J : Type} (lib : Json J) (fs : FS) (f : FileInfo)
    (k : GoString) (v : J) :
    dashboardEntry lib fs f = some (k, v) ↔
      f.IsDir = false ∧ Contains f.Name (str ".json") = true ∧
      Contains f.Name RemovedPrefix = false ∧
      ∃ b, ReadFile fs (getDashboardPath f.Name) = some b ∧ lib.Unmarshal b = some v ∧
        stem f.Name = k := by
  unfold dashboardEntry
  by_cases hc : (f.IsDir || !Contains f.Name (str ".json") || Contains f.Name RemovedPrefix) = true
  · simp only [hc, if_true]
    constructor
    · intro h; cases h
    · rintro ⟨h1, h2, h3, _⟩
      simp [h1, h2, h3] at hc
  · have hc2 : f.IsDir = false ∧ Contains f.Name (str ".json") = true ∧
        Contains f.Name RemovedPrefix = false := by
      simpa [not_or, and_assoc] using hc
    simp only [hc, Bool.false_eq_true, if_false]
    cases hr : ReadFile fs (getDashboardPath f.Name) with
    | none =>
      simp only []
      constructor
      · intro h; cases h
      · rintro ⟨_, _, _, b2, hb, _⟩; cases hb
    | some b =>
      simp only []
      cases hu : lib.Unmarshal b with
      | none =>
        simp only []
        constructor
        · intro h; cases h
        · rintro ⟨_, _, _, b2, hb, hv, _⟩
          cases hb
          rw [hu] at hv
          cases hv
      | some temp =>
        simp only [Option.some.injEq, Prod.mk.injEq]
        constructor
        · rintro ⟨h1, h2⟩
          exact ⟨hc2.1, hc2.2.1, hc2.2.2, b, rfl, by rw [hu, h2], h1⟩
        · rintro ⟨_, _, _, b2, hb, hv, hk⟩
          cases hb
          rw [hu] at hv
          exact ⟨hk, Option.some.inj hv⟩

theorem lookup_filter_ne {V : Type} (m : List (GoString × V)) (k k1 : GoString) :
    (m.filter (fun e => e.1 != k)).lookup k1 = if k1 = k then none else m.lookup k1 := by
  induction m with
  | nil => simp
  | cons e es ih =>
    obtain ⟨a, v⟩ := e
    by_cases ha : a = k
    · subst ha
      have hf : ((a, v) :: es).filter (fun e => e.1 != a) = es.filter (fun e => e.1 != a) := by
        simp [List.filter_cons]
      rw [hf, ih]
      by_cases hk : k1 = a
      · rw [if_pos hk, if_pos hk]
      · have hb : (k1 == a) = false := by simpa using hk
        rw [if_neg hk, if_neg hk, List.lookup_cons, hb]
    · have h1 : (a != k) = true := by simpa using ha
      have hf : ((a, v) :: es).filter (fun e => e.1 != k) =
          (a, v) :: es.filter (fun e => e.1 != k) := by
        simp [List.filter_cons, h1]
      rw [hf, List.lookup_cons, ih, List.lookup_cons]
      by_cases hk : k1 = k
      · subst hk
        have hb : (k1 == a) = false := by simpa using fun h : k1 = a => ha h.symm
        rw [hb]
      · rw [if_neg hk, if_neg hk]

theorem lookup_mapSet {V : Type} (m : List (GoString × V)) (k k1 : GoString) (v : V) :
    (mapSet m k v).lookup k1 = if k1 = k then some v else m.lookup k1 := by
  unfold mapSet
  rw [List.lookup_cons, lookup_filter_ne]
  by_cases hk : k1 = k
  · simp [hk]
  · have : (k1 == k) = false := by simpa using hk
    simp [hk, this]

/-- The value the map holds for a key when the loop ends: the document of the
last listed file that produced that key, or what the map held before. -/
theorem lookup_foldl_dashboardStep {J : Type} (lib : Json J) (fs : FS) (files : List FileInfo)
    (m : List (GoString × J)) (k : GoString) :
    (files.foldl (dashboardStep lib fs) m).lookup k =
      (((files.filterMap (dashboardEntry lib fs)).reverse.lookup k).or (m.lookup k)) := by
  induction files generalizing m with
  | nil => simp
  | cons f rest ih =>
    rw [List.foldl_cons, ih, dashboardStep_eq]
    cases he : dashboardEntry lib fs f with
    | none => simp [List.filterMap_cons, he]
    | some e =>
      obtain ⟨k1, v1⟩ := e
      simp only [List.filterMap_cons, he, List.reverse_cons, List.lookup_append, lookup_mapSet,
        List.lookup_cons, List.lookup_nil]
      cases ((List.filterMap (dashboardEntry lib fs) rest).reverse.lookup k) with
      | some x => simp
      | none =>
        by_cases hk : k = k1
        · simp [hk]
        · have : (k == k1) = false := by simpa using hk
          simp [hk, this]

theorem lookup_dashboardMap {J : Type} (lib : Json J) (fs : FS) (files : List FileInfo)
    (k : GoString) :
    (dashboardMap lib fs files).lookup k =
      (files.filterMap (dashboardEntry lib fs)).reverse.lookup k := by
  unfold dashboardMap
  rw [lookup_foldl_dashboardStep]
  simp

/-- Every entry of the map is the decoded document of a listed file. -/
theorem dashboardMap_sound {J : Type} (lib : Json J) (fs : FS) (files : List FileInfo)
    (k : GoString) (v : J) (h : (dashboardMap lib fs files).lookup k = some v) :
    ∃ f ∈ files, dashboardEntry lib fs f = some (k, v) := by
  rw [lookup_dashboardMap, List.lookup_eq_some_iff] at h
  obtain ⟨l1, l2, hl, _⟩ := h
  have hmem : (k, v) ∈ (files.filterMap (dashboardEntry lib fs)).reverse := by
    rw [hl]; simp
  rw [List.mem_reverse, List.mem_filterMap] at hmem
  exact hmem

/-- A listed file that produces an entry leaves its key in the map. -/
theorem dashboardMap_complete {J : Type} (lib : Json J) (fs : FS) (files : List FileInfo)
    (f : FileInfo) (hf : f ∈ files) (k : GoString) (v : J)
    (he : dashboardEntry lib fs f = some (k, v)) :
    ((dashboardMap lib fs files).lookup k).isSome = true := by
  rw [lookup_dashboardMap, List.lookup_isSome_iff]
  refine ⟨(k, v), ?_, by simp⟩
  rw [List.mem_reverse, List.mem_filterMap]
  exact ⟨f, hf, he⟩

theorem mem_dashboardMap_key {J : Type} (lib : Json J) (fs : FS) (files : List FileInfo)
    (e : GoString × J) (he : e ∈ dashboardMap lib fs files) :
    ∃ v, (dashboardMap lib fs files).lookup e.1 = some v := by
  have : ((dashboardMap lib fs files).lookup e.1).isSome = true := by
    rw [List.lookup_isSome_iff]
    exact ⟨e, he, by simp⟩
  exact Option.isSome_iff_exists.mp this

theorem stem_initial_segment (name : GoString) : stem name <+: name := by
  unfold stem
  rw [split_head]
  exact List.takeWhile_prefix _

theorem contains_stem (name sub : GoString) (h : Contains (stem name) sub = true) :
    Contains name sub = true := by
  rw [contains_iff] at h ⊢
  exact h.trans (stem_initial_segment name).isInfix

/-- C7: whatever the data directory holds, no key of the object that
`handleGetDashboards` encodes contains (or starts with) the soft-delete prefix
`deleted_`. -/
theorem list_never_exposes_deleted {J : Type} (lib : Json J) (fs : FS) (files : List FileInfo)
    (w : ResponseWriter) (r : Request) (hfiles : ReadDir fs dataDir = some files) :
    handleGetDashboards lib w r fs =
      (match lib.Marshal (dashboardMap lib fs files) with
        | none => (w.WriteHeader StatusInternalServerError, fs)
        | some jsonBytes =>
          ((w.Set (str "Content-Type") (str "application/json")).Write jsonBytes, fs)) ∧
    ∀ e ∈ dashboardMap lib fs files,
      Contains e.1 RemovedPrefix = false ∧ HasPrefix e.1 RemovedPrefix = false := by
  refine ⟨by simp only [handleGetDashboards, hfiles], ?_⟩
  intro e he
  obtain ⟨v, hv⟩ := mem_dashboardMap_key lib fs files e he
  obtain ⟨f, _, hf⟩ := dashboardMap_sound lib fs files e.1 v hv
  obtain ⟨_, _, hdel, _, _, _, hstem⟩ := (dashboardEntry_eq_some lib fs f e.1 v).mp hf
  have hc : Contains e.1 RemovedPrefix = false := by
    cases h : Contains e.1 RemovedPrefix
    · rfl
    · rw [← hstem] at h
      rw [contains_stem f.Name RemovedPrefix h] at hdel
      cases hdel
  refine ⟨hc, ?_⟩
  cases h : HasPrefix e.1 RemovedPrefix
  · rfl
  · have : Contains e.1 RemovedPrefix = true :=
      (contains_iff _ _).mpr ((hasPrefix_iff _ _).mp h).isInfix
    rw [hc] at this
    cases this

theorem list_never_exposes_deleted_witness :
    (dashboardMap sampleJson ⟨some [], some mixedDir⟩ (listing mixedDir)).all
      (fun e => !Contains e.1 RemovedPrefix) = true ∧
    (dashboardMap sampleJson ⟨some [], some mixedDir⟩ (listing mixedDir)).map Prod.fst =
      [str "weather", str "radar"] :=
  ⟨List.all_eq_true.mpr (fun e he => by
    have h := ((list_never_exposes_deleted sampleJson ⟨some [], some mixedDir⟩ (listing mixedDir)
      .new ⟨str "GET", str "/v0/dashboard/", some []⟩ (by decide)).2 e he).1
    rw [h]
    rfl), by decide⟩

/-- C6, counterexample: the regular file `a.json.bak` contains `.json`, does
not contain the soft-delete prefix and holds the well-formed document `{}`,
yet the listing has no entry for its stem `a`: the loop looks for
`./data/a.json.bak.json`, which does not exist. -/
theorem list_skips_name_not_ending_in_json :
    ReadDir backupFS dataDir = some [⟨str "a.json.bak", false⟩] ∧
      Contains (str "a.json.bak") (str ".json") = true ∧
      Contains (str "a.json.bak") RemovedPrefix = false ∧
      ReadFile backupFS (str "./data/a.json.bak") = some (str "\x7b\x7d") ∧
      sampleJson.Unmarshal (str "\x7b\x7d") = some (str "\x7b\x7d") ∧
      stem (str "a.json.bak") = str "a" ∧
      (dashboardMap sampleJson backupFS [⟨str "a.json.bak", false⟩]).lookup (str "a") = none ∧
      (handleGetDashboards sampleJson .new ⟨str "GET", str "/v0/dashboard/", some []⟩
        backupFS).1.body = str "\x7b\x7d" := by
  decide

/-- C6, as amended: for a well-formed data directory, when encoding the result
succeeds, `handleGetDashboards` answers 200 with the encoded map; every entry
of the map is the decoded document of a listed regular file, with `.json` in
its name and without the soft-delete prefix, whose stem is the key (so a file
that fails to decode brings no entry); and every regular file whose name ends
in `.json`, does not contain the prefix, and whose content decodes has an
entry under its stem, which holds that file's document when no other listable
file of the directory has the same stem. -/
theorem list_partial_failure {J : Type} (lib : Json J) (app : Option Dir) (d : Dir)
    (w : ResponseWriter) (r : Request) (body : GoString) (hwf : d.WF) (hw : w.status = none)
    (hmar : lib.Marshal (dashboardMap lib ⟨app, some d⟩ (listing d)) = some body) :
    handleGetDashboards lib w r ⟨app, some d⟩ =
      ((w.Set (str "Content-Type") (str "application/json")).Write body, ⟨app, some d⟩) ∧
    (handleGetDashboards lib w r ⟨app, some d⟩).1.statusCode = 200 ∧
    (∀ k v, (dashboardMap lib ⟨app, some d⟩ (listing d)).lookup k = some v →
      ∃ name node, (name, node) ∈ d ∧ node ≠ .dir ∧ Contains name (str ".json") = true ∧
        Contains name RemovedPrefix = false ∧ stem name = k ∧
        ∃ content, ReadFile ⟨app, some d⟩ (getDashboardPath name) = some content ∧
          lib.Unmarshal content = some v) ∧
    (∀ name content v, d.lookup name = some (.file content) →
      HasSuffix name (str ".json") = true → Contains name RemovedPrefix = false →
      lib.Unmarshal content = some v →
      ((dashboardMap lib ⟨app, some d⟩ (listing d)).lookup (stem name)).isSome = true ∧
      ((∀ e ∈ d, e.1 ≠ name → Contains e.1 (str ".json") = true →
          Contains e.1 RemovedPrefix = false → stem e.1 ≠ stem name) →
        (dashboardMap lib ⟨app, some d⟩ (listing d)).lookup (stem name) = some v)) := by
  have hget : handleGetDashboards lib w r ⟨app, some d⟩ =
      ((w.Set (str "Content-Type") (str "application/json")).Write body, ⟨app, some d⟩) := by
    simp only [handleGetDashboards, readDir_data, hmar]
  refine ⟨hget, ?_, ?_, ?_⟩
  · rw [hget]
    obtain ⟨hd, st, bd⟩ := w
    simp only at hw
    subst hw
    rfl
  · intro k v hkv
    obtain ⟨f, hf, he⟩ := dashboardMap_sound lib _ _ k v hkv
    obtain ⟨hdir, hjs, hdel, b, hb, hu, hstem⟩ := (dashboardEntry_eq_some lib _ f k v).mp he
    obtain ⟨e, hed, rfl⟩ := (mem_listing d f).mp hf
    refine ⟨e.1, e.2, hed, ?_, hjs, hdel, hstem, b, hb, hu⟩
    intro hn
    simp [hn] at hdir
  · intro name content v hl hsuf hdel hu
    have hmem : (⟨name, false⟩ : FileInfo) ∈ listing d :=
      (mem_listing d _).mpr ⟨(name, .file content), mem_of_lookup d name _ hl, by simp⟩
    have hlegal : legalName name = true := hwf.1 _ (mem_of_lookup d name _ hl)
    have hread : ReadFile ⟨app, some d⟩ (getDashboardPath name) = some content := by
      rw [getDashboardPath_eq, if_pos hsuf, readFile_eq app d _ name (resolve_data name hlegal),
        hl]
    have hjs : Contains name (str ".json") = true :=
      (contains_iff _ _).mpr ((hasSuffix_iff _ _).mp hsuf).isInfix
    have hentry : dashboardEntry lib ⟨app, some d⟩ ⟨name, false⟩ = some (stem name, v) :=
      (dashboardEntry_eq_some lib _ _ _ _).mpr ⟨rfl, hjs, hdel, content, hread, hu, rfl⟩
    have hsome := dashboardMap_complete lib _ _ _ hmem _ _ hentry
    refine ⟨hsome, fun huniq => ?_⟩
    obtain ⟨v1, hv1⟩ := Option.isSome_iff_exists.mp hsome
    obtain ⟨f1, hf1, he1⟩ := dashboardMap_sound lib _ _ _ v1 hv1
    obtain ⟨_, hjs1, hdel1, b1, hb1, hu1, hstem1⟩ := (dashboardEntry_eq_some lib _ f1 _ v1).mp he1
    obtain ⟨e1, he1d, rfl⟩ := (mem_listing d f1).mp hf1
    by_cases hne : e1.1 = name
    · simp only [hne] at hb1
      rw [hread] at hb1
      cases hb1
      rw [hu] at hu1
      cases hu1
      exact hv1
    · exact absurd hstem1 (huniq e1 he1d hne hjs1 hdel1)

theorem list_partial_failure_witness :
    (dashboardMap sampleJson ⟨some [], some mixedDir⟩ (listing mixedDir)).lookup
        (stem (str "weather.json")) = some (str "\x7b\"a\":1\x7d") :=
  ((list_partial_failure sampleJson (some []) mixedDir .new
    ⟨str "GET", str "/v0/dashboard/", some []⟩
    (str "\x7b\"radar\":\x7b\x7d,\"weather\":\x7b\"a\":1\x7d\x7d")
    (by decide) rfl (by decide)).2.2.2
    (str "weather.json") (str "\x7b\"a\":1\x7d") (str "\x7b\"a\":1\x7d")
    (by decide) (by decide) (by decide) (by decide)).2 (by decide)

/-! ## Soft delete -/

/-- C2, counterexample: the data directory holds `a.json` and `a.b.json`.
The DELETE of `a` succeeds, yet the listing still has the key `a`, now with
the document of `a.b.json`. -/
theorem soft_deleted_name_still_listed :
    (handleDeleteDashboard .new ⟨str "DELETE", str "/v0/dashboard/a", some []⟩ (str "a")
        sharedStemFS).1.statusCode = 200 ∧
      (handleGetDashboards sampleJson .new ⟨str "GET", str "/v0/dashboard/", some []⟩
        (handleDeleteDashboard .new ⟨str "DELETE", str "/v0/dashboard/a", some []⟩ (str "a")
          sharedStemFS).2).1.body = str "\x7b\"a\":\x7b\"x\":1\x7d\x7d" ∧
      (ReadDir (handleDeleteDashboard .new ⟨str "DELETE", str "/v0/dashboard/a", some []⟩
          (str "a") sharedStemFS).2 dataDir).map
        (fun files => (dashboardMap sampleJson
          (handleDeleteDashboard .new ⟨str "DELETE", str "/v0/dashboard/a", some []⟩ (str "a")
            sharedStemFS).2 files).lookup (str "a")) =
        some (some (str "\x7b\"x\":1\x7d")) := by
  decide

/-- C2, as amended: for a valid name `n` and a data directory in which
`n.json` is a regular file with content `b` and no other listable file (one
with `.json` in its name and without the soft-delete prefix) has the stem `n`,
after a `handleDeleteDashboard(n)` that answers 200, `handleGetDashboard(n)`
answers 404, the object `handleGetDashboards` builds has no key `n`, and the
file `deleted_n.json` holds exactly `b`. -/
theorem soft_delete_hides {J : Type} (lib : Json J) (n b : GoString) (app : Option Dir) (d : Dir)
    (w w1 w2 : ResponseWriter) (r r2 : Request) (fs1 : FS) (hn : validName n)
    (hfile : d.lookup (n ++ str ".json") = some (.file b))
    (hstem : ∀ e ∈ d, e.1 ≠ n ++ str ".json" → Contains e.1 (str ".json") = true →
      Contains e.1 RemovedPrefix = false → stem e.1 ≠ n)
    (hw : w.status = none)
    (hdel : handleDeleteDashboard w r n ⟨app, some d⟩ = (w1, fs1)) (hok : w1.statusCode = 200)
    (hw2 : w2.status = none) :
    (handleGetDashboard w2 r2 n fs1).1.statusCode = 404 ∧
    (∃ files, ReadDir fs1 dataDir = some files ∧
      (dashboardMap lib fs1 files).lookup n = none) ∧
    ReadFile fs1 (getDashboardPath (RemovedPrefix ++ n)) = some b := by
  have hfs1 : fs1 = ⟨app, some ((d.erase (n ++ str ".json")).put
      (RemovedPrefix ++ n ++ str ".json") (.file b))⟩ := by
    simp only [handleDeleteDashboard] at hdel
    rw [rename_valid app d n hn, hfile] at hdel
    have hbad : ∀ x : FS, (w.WriteHeader StatusInternalServerError, (⟨app, some d⟩ : FS)) = (w1, x) →
        False := by
      intro x hx
      have h1 : w1 = w.WriteHeader StatusInternalServerError := (congrArg Prod.fst hx).symm
      rw [h1, writeHeader_statusCode w _ hw] at hok
      revert hok
      decide
    cases hl : d.lookup (RemovedPrefix ++ n ++ str ".json") with
    | none =>
      rw [hl] at hdel
      exact (congrArg Prod.snd hdel).symm
    | some node =>
      rw [hl] at hdel
      cases node with
      | dir => exact (hbad fs1 hdel).elim
      | file c => exact (congrArg Prod.snd hdel).symm
  subst hfs1
  refine ⟨?_, ?_, ?_⟩
  · have hr : ReadFile ⟨app, some ((d.erase (n ++ str ".json")).put
        (RemovedPrefix ++ n ++ str ".json") (.file b))⟩ (getDashboardPath n) = none := by
      rw [readFile_eq app _ _ _ (resolve_valid n hn), lookup_put_ne _ _ _ _ (removed_ne n),
        lookup_erase_self]
    simp only [handleGetDashboard, hr]
    exact writeHeader_statusCode w2 _ hw2
  · refine ⟨_, readDir_data app _, ?_⟩
    cases hl : (dashboardMap lib _ (listing ((d.erase (n ++ str ".json")).put
        (RemovedPrefix ++ n ++ str ".json") (.file b)))).lookup n with
    | none => rfl
    | some v =>
      exfalso
      obtain ⟨f, hf, he⟩ := dashboardMap_sound lib _ _ n v hl
      obtain ⟨_, hjs, hnd, _, _, _, hst⟩ := (dashboardEntry_eq_some lib _ f n v).mp he
      obtain ⟨e, hed, rfl⟩ := (mem_listing _ f).mp hf
      rcases (mem_put_iff _ _ _ e).mp hed with heq | ⟨hmem, _⟩
      · have hc : Contains (RemovedPrefix ++ n ++ str ".json") RemovedPrefix = true := by
          rw [contains_iff, List.append_assoc]
          exact (List.prefix_append _ _).isInfix
        rw [heq] at hnd
        simp only at hnd
        rw [hc] at hnd
        cases hnd
      · obtain ⟨hmd, hne⟩ := (mem_erase_iff d _ e).mp hmem
        exact hstem e hmd hne hjs hnd hst
  · rw [readFile_eq app _ _ _ (resolve_valid _ (validName_removed n hn)), lookup_put_self]

theorem soft_delete_hides_witness :
    (handleGetDashboard .new ⟨str "GET", str "/v0/dashboard/weather", some []⟩ (str "weather")
      ⟨some [], some [(str "deleted_weather.json", .file (str "\x7b\"a\":1\x7d")),
        (str "broken.json", .file (str "oops")),
        (str "deleted_old.json", .file (str "\x7b\x7d")),
        (str "radar.json", .file (str "\x7b\x7d"))]⟩).1.statusCode = 404 :=
  (soft_delete_hides sampleJson (str "weather") (str "\x7b\"a\":1\x7d") (some []) mixedDir
    .new (ResponseWriter.new.WriteHeader StatusOK) .new
    ⟨str "DELETE", str "/v0/dashboard/weather", some []⟩
    ⟨str "GET", str "/v0/dashboard/weather", some []⟩
    ⟨some [], some [(str "deleted_weather.json", .file (str "\x7b\"a\":1\x7d")),
        (str "broken.json", .file (str "oops")),
        (str "deleted_old.json", .file (str "\x7b\x7d")),
        (str "radar.json", .file (str "\x7b\x7d"))]⟩
    (by decide) (by decide) (by decide) rfl (by decide) (by decide) rfl).1

end RosPlot
